import Mathlib

/-!
# Verification of the watchlist-to-RSS pipeline

Shallow embedding of the JavaScript source (src/index.js and the
unnamed variant src/unnamed/part_000) of the google-watchlist-to-rss
repository, together with proofs about the embedded operations.

Conventions of the embedding:
* JavaScript strings are Lean `String`s (a `String` is a list of
  unicode scalar values, matching the code-point view the source uses).
* `null`/`undefined` values of optional fields become `Option`.
* JavaScript number fields that are always integers in this program
  (TMDB ids, millisecond timestamps, years) become `Int`; the `NaN`
  produced by `getFullYear` on an unparseable date is modelled as
  `none` of `Option Int` (both `null` and `NaN` are falsy, which is
  the only way the program inspects them).
* Plain JavaScript objects used as lookup tables become functions
  `κ → Option MovieRecord`, built by the same left fold the source
  uses (`reduce`), so a later entry with the same key overwrites an
  earlier one exactly as in the source.
* External collaborators (the TMDB HTTP transport, `encodeURI`,
  `Date` parsing, the page fetcher) are parameters, bundled in
  `JsEnv`; everything the repository itself computes is defined here.
  `String.prototype.toLowerCase`, a Unicode library routine, is
  likewise a collaborator: the slugifier is stated over an arbitrary
  case conversion (`slugifyWith`), with the ASCII instance
  (`slugify`) as the executable key function.
-/

/-! ## Character classes of the slugifier

`slugify` (src/unnamed/part_000 lines 185-192, src/index.js 151-158)
uses the regexes `[^\w\s-]`, `[\s_-]+` and `^-+|-+$` plus
`toLowerCase`/`trim`.  The classes are expressed on code points. -/

/-- The JavaScript regex class `\s` together with the set removed by
`String.prototype.trim` (ECMAScript WhiteSpace and LineTerminator):
TAB, LF, VT, FF, CR, SP, NBSP, OGHAM SP, U+2000-200A, LS, PS, NNBSP,
MMSP, IDSP, ZWNBSP. -/
def isJsSpace (c : Char) : Bool :=
  let n := c.toNat
  n == 0x9 || n == 0xa || n == 0xb || n == 0xc || n == 0xd ||
  n == 0x20 || n == 0xa0 || n == 0x1680 ||
  (0x2000 ≤ n && n ≤ 0x200a) ||
  n == 0x2028 || n == 0x2029 || n == 0x202f || n == 0x205f ||
  n == 0x3000 || n == 0xfeff

/-- The JavaScript regex class `\w`, i.e. `[A-Za-z0-9_]`. -/
def isWordChar (c : Char) : Bool :=
  let n := c.toNat
  (0x61 ≤ n && n ≤ 0x7a) || (0x41 ≤ n && n ≤ 0x5a) ||
  (0x30 ≤ n && n ≤ 0x39) || n == 0x5f

/-- ASCII `A`-`Z`, the characters `toLowerCase` changes that can also
survive the `[^\w\s-]` filter. -/
def isAsciiUpper (c : Char) : Bool :=
  0x41 ≤ c.toNat && c.toNat ≤ 0x5a

/-- The ASCII fragment of `String.prototype.toLowerCase`: `A`-`Z`
map to `a`-`z`, every other code point is left unchanged.  This is
not the whole Unicode default case conversion (U+212A KELVIN SIGN
lower-cases to the ASCII `k`, U+0130 to `i` followed by U+0307), so
it only provides the executable instance of the embedding; the
faithful statement about `toLowerCase` itself is made by the
parameterised pipeline `slugifyWith` below, whose hypotheses the full
Unicode conversion satisfies. -/
def jsToLower (c : Char) : Char :=
  if isAsciiUpper c then Char.ofNat (c.toNat + 32) else c

/-- The regex class `[\s_-]` of the separator-collapsing replace. -/
def isSep (c : Char) : Bool :=
  isJsSpace c || c.toNat == 0x5f || c.toNat == 0x2d

/-- A character kept by `replace(/[^\w\s-]/g, '')`. -/
def keepChar (c : Char) : Bool :=
  isWordChar c || isJsSpace c || c.toNat == 0x2d

/-- `String.prototype.trim`: drop leading and trailing whitespace. -/
def jsTrim (l : List Char) : List Char :=
  ((l.dropWhile isJsSpace).reverse.dropWhile isJsSpace).reverse

/-- `replace(/[\s_-]+/g, '-')`: each maximal run of separator
characters becomes a single hyphen.  `prevSep` records whether the
previous character belonged to a run that already emitted its
hyphen. -/
def collapseSeps (prevSep : Bool) : List Char → List Char
  | [] => []
  | c :: cs =>
    if isSep c then
      if prevSep then collapseSeps true cs
      else '-' :: collapseSeps true cs
    else c :: collapseSeps false cs

/-- `replace(/^-+|-+$/g, '')`: drop leading and trailing hyphen runs. -/
def stripHyphens (l : List Char) : List Char :=
  ((l.dropWhile (fun c => c == '-')).reverse.dropWhile (fun c => c == '-')).reverse

/-- The body of `slugify` (src/unnamed/part_000 lines 185-192) on
the underlying character list, instantiated with the ASCII fragment
of `toLowerCase`: lowercase, trim, remove `[^\w\s-]`, collapse
`[\s_-]+` runs to `-`, strip outer hyphens.  It agrees with the
source on every string whose characters are ASCII or carry no
lower-case mapping; on the exceptional code points whose lower-case
forms land in `\w` (U+212A, U+0130) it differs, which is why the
idempotence claim is settled for an arbitrary case-conversion
collaborator (`slugifyWith`, `slugify_toLowerCase_idempotent`). -/
def slugifyL (l : List Char) : List Char :=
  stripHyphens (collapseSeps false (List.filter keepChar (jsTrim (l.map jsToLower))))

/-- `slugify` (src/unnamed/part_000 lines 185-192, src/index.js
151-158), executable ASCII instance (`slugify_eq_with`).  The
cache-key, currency and duplicate-detection theorems treat it as an
opaque key function and never unfold it. -/
def slugify (s : String) : String :=
  ⟨slugifyL s.data⟩

/-! ## The data model -/

/-- The record shape produced by `fetchMovieData` and stored in the
cache file: both the resolved branch and the fallback literal of
src/unnamed/part_000 lines 130-138 and 166-174 have exactly these
fields. -/
structure MovieRecord where
  id : Int
  title : String
  releaseDate : Option String
  releaseYear : Option Int
  mediaType : Option String
  dateAdded : Int
  googleSearchUrl : String
deriving DecidableEq, Repr

/-- A plain-object lookup table built by `reduce((map, movie) => {
map[key(movie)] = movie; return map; }, {})`: a left fold in which a
later record with the same key overwrites an earlier one.  Reading a
missing key gives `none` (JS `undefined`, falsy); a stored record is
always truthy. -/
def buildMap {κ : Type} [DecidableEq κ] (key : MovieRecord → κ)
    (l : List MovieRecord) : κ → Option MovieRecord :=
  l.foldl (fun m movie => fun k => if k = key movie then some movie else m k)
    (fun _ => none)

/-- `combineWatchlists(newData, cachedData)` (src/unnamed/part_000
lines 366-382, src/index.js 309-325): build `cachedById` keyed by
`movie.id`, then map over `newData`, replacing `dateAdded` by the
cached record's value whenever the id lookup is truthy. -/
def combineWatchlists (newData cachedData : List MovieRecord) : List MovieRecord :=
  let cachedById := buildMap (fun movie => movie.id) cachedData
  newData.map (fun movie =>
    match cachedById movie.id with
    | some c => { movie with dateAdded := c.dateAdded }
    | none => movie)

/-! ### Lookup-table lemmas -/

theorem buildMap_cases {κ : Type} [DecidableEq κ] (key : MovieRecord → κ)
    (l : List MovieRecord) (acc : κ → Option MovieRecord) (k : κ) :
    ((l.foldl (fun m movie => fun q => if q = key movie then some movie else m q) acc) k
        = acc k ∧ ∀ c ∈ l, key c ≠ k) ∨
    (∃ c ∈ l, key c = k ∧
      (l.foldl (fun m movie => fun q => if q = key movie then some movie else m q) acc) k
        = some c) := by
  induction l generalizing acc with
  | nil => exact Or.inl ⟨rfl, by simp⟩
  | cons a l ih =>
    rcases ih (fun q => if q = key a then some a else acc q) with ⟨heq, hnone⟩ | ⟨c, hc, hk, heq⟩
    · by_cases hka : k = key a
      · refine Or.inr ⟨a, by simp, hka.symm, ?_⟩
        rw [List.foldl_cons, heq, if_pos hka]
      · refine Or.inl ⟨?_, ?_⟩
        · rw [List.foldl_cons, heq, if_neg hka]
        · intro c hc
          rcases List.mem_cons.mp hc with rfl | hc
          · exact fun h => hka h.symm
          · exact hnone c hc
    · exact Or.inr ⟨c, List.mem_cons_of_mem a hc, hk, by rw [List.foldl_cons]; exact heq⟩

theorem buildMap_eq_none {κ : Type} [DecidableEq κ] (key : MovieRecord → κ)
    (l : List MovieRecord) (k : κ) (h : ∀ c ∈ l, key c ≠ k) :
    buildMap key l k = none := by
  rcases buildMap_cases key l (fun _ => none) k with ⟨heq, _⟩ | ⟨c, hc, hk, _⟩
  · exact heq
  · exact absurd hk (h c hc)

theorem buildMap_eq_some {κ : Type} [DecidableEq κ] (key : MovieRecord → κ)
    (l : List MovieRecord) (k : κ) (h : ∃ c ∈ l, key c = k) :
    ∃ c ∈ l, key c = k ∧ buildMap key l k = some c := by
  rcases buildMap_cases key l (fun _ => none) k with ⟨_, hnone⟩ | ⟨c, hc, hk, heq⟩
  · rcases h with ⟨c, hc, hk⟩
    exact absurd hk (hnone c hc)
  · exact ⟨c, hc, hk, heq⟩

/-- Pointwise description of `combineWatchlists`: entry `i` of the
output is entry `i` of `newData` with `dateAdded` replaced according
to the id lookup. -/
theorem combineWatchlists_getElem (newData cachedData : List MovieRecord)
    (i : Nat) (r : MovieRecord) (hr : newData[i]? = some r) :
    (combineWatchlists newData cachedData)[i]?
      = some (match buildMap (fun movie => movie.id) cachedData r.id with
          | some c => { r with dateAdded := c.dateAdded }
          | none => r) := by
  unfold combineWatchlists
  rw [List.getElem?_map, hr, Option.map_some']

/-- C1. For every merge of freshly resolved records with cached
records, a fresh record whose id equals the id of some cached record
is output with that cached record's `dateAdded` while every other
field keeps the fresh record's value, and a fresh record whose id
matches no cached record is output unchanged. -/
theorem combineWatchlists_dateAdded (newData cachedData : List MovieRecord)
    (i : Nat) (r : MovieRecord) (hr : newData[i]? = some r) :
    ((∃ c ∈ cachedData, c.id = r.id) →
      ∃ c ∈ cachedData, c.id = r.id ∧
        (combineWatchlists newData cachedData)[i]?
          = some { r with dateAdded := c.dateAdded }) ∧
    ((∀ c ∈ cachedData, c.id ≠ r.id) →
      (combineWatchlists newData cachedData)[i]? = some r) := by
  constructor
  · intro hex
    rcases buildMap_eq_some (fun movie => movie.id) cachedData r.id hex
      with ⟨c, hc, hk, heq⟩
    refine ⟨c, hc, hk, ?_⟩
    rw [combineWatchlists_getElem newData cachedData i r hr, heq]
  · intro hno
    rw [combineWatchlists_getElem newData cachedData i r hr,
      buildMap_eq_none (fun movie => movie.id) cachedData r.id hno]

/-- A fresh record with id 42 and `dateAdded` 200. -/
def freshRec42 : MovieRecord :=
  { id := 42, title := "Fresh Title", releaseDate := some "2024-01-01",
    releaseYear := some 2024, mediaType := some "movie", dateAdded := 200,
    googleSearchUrl := "https://google.ca/search?q=Fresh" }

/-- A cached record with id 42 and the original `dateAdded` 7. -/
def cachedRec42 : MovieRecord :=
  { id := 42, title := "Cached Title", releaseDate := none,
    releaseYear := none, mediaType := none, dateAdded := 7,
    googleSearchUrl := "https://google.ca/search?q=Cached" }

theorem combineWatchlists_dateAdded_witness :
    ∃ c ∈ [cachedRec42], c.id = freshRec42.id ∧
      (combineWatchlists [freshRec42] [cachedRec42])[0]?
        = some { freshRec42 with dateAdded := c.dateAdded } :=
  (combineWatchlists_dateAdded [freshRec42] [cachedRec42] 0 freshRec42 rfl).1
    ⟨cachedRec42, by decide, by decide⟩

/-- A fresh unresolved record (id 0) whose own `dateAdded` is 100. -/
def freshUnresolved : MovieRecord :=
  { id := 0, title := "Mystery Film", releaseDate := none,
    releaseYear := none, mediaType := none, dateAdded := 100,
    googleSearchUrl := "https://google.ca/search?q=Mystery%20Film" }

/-- A cached unresolved record (id 0) with `dateAdded` 5. -/
def cachedUnresolved : MovieRecord :=
  { id := 0, title := "Other Mystery", releaseDate := none,
    releaseYear := none, mediaType := none, dateAdded := 5,
    googleSearchUrl := "https://google.ca/search?q=Other%20Mystery" }

/-- C2, counterexample.  The claim says a fresh unresolved record
(id 0) keeps its own freshly assigned `dateAdded` even when the
cached set contains a record with id 0.  On the code it does not:
with a cached id-0 record present, the merge overwrites the fresh
record's `dateAdded` 100 with the cached 5, because the id-keyed
lookup object stores the id-0 record under the key 0 and the stored
object is truthy. -/
theorem combineWatchlists_unresolved_counterexample :
    freshUnresolved.id = 0 ∧ cachedUnresolved.id = 0 ∧
    (combineWatchlists [freshUnresolved] [cachedUnresolved]).map
        (fun m => m.dateAdded) = [5] ∧
    combineWatchlists [freshUnresolved] [cachedUnresolved]
      ≠ [freshUnresolved] := by
  decide

/-- C2, amended.  A fresh unresolved record (id 0) is merge-matched
like any other id: when the cached set contains a record with id 0 it
receives that cached record's `dateAdded`, and only when no cached
record has id 0 does it keep its own freshly assigned `dateAdded`. -/
theorem combineWatchlists_unresolved_matched (newData cachedData : List MovieRecord)
    (i : Nat) (r : MovieRecord) (hr : newData[i]? = some r) (h0 : r.id = 0) :
    ((∃ c ∈ cachedData, c.id = 0) →
      ∃ c ∈ cachedData, c.id = 0 ∧
        (combineWatchlists newData cachedData)[i]?
          = some { r with dateAdded := c.dateAdded }) ∧
    ((∀ c ∈ cachedData, c.id ≠ 0) →
      (combineWatchlists newData cachedData)[i]? = some r) := by
  constructor
  · intro hex
    rcases buildMap_eq_some (fun movie => movie.id) cachedData 0 hex
      with ⟨c, hc, hk, heq⟩
    refine ⟨c, hc, hk, ?_⟩
    rw [combineWatchlists_getElem newData cachedData i r hr, h0, heq]
  · intro hno
    rw [combineWatchlists_getElem newData cachedData i r hr, h0,
      buildMap_eq_none (fun movie => movie.id) cachedData 0 hno]

theorem combineWatchlists_unresolved_matched_witness :
    ∃ c ∈ [cachedUnresolved], c.id = 0 ∧
      (combineWatchlists [freshUnresolved] [cachedUnresolved])[0]?
        = some { freshUnresolved with dateAdded := c.dateAdded } :=
  (combineWatchlists_unresolved_matched [freshUnresolved] [cachedUnresolved]
      0 freshUnresolved rfl rfl).1 ⟨cachedUnresolved, by decide, by decide⟩

/-! ## The metadata resolver -/

/-- One element of the TMDB `results` array, with the fields the
source reads.  Absent JSON fields are `none`; an empty string is a
present-but-falsy value, distinguished because the source combines
fields with `||`. -/
structure Candidate where
  id : Int
  title : Option String
  name : Option String
  release_date : Option String
  first_air_date : Option String
  media_type : Option String
deriving DecidableEq, Repr

/-- JavaScript `a || b` on string-or-undefined values: take `a`
unless it is absent or the empty string (falsy). -/
def jsOr (a b : Option String) : Option String :=
  match a with
  | some s => if s = "" then b else some s
  | none => b

/-- JavaScript string concatenation coerces `undefined` to the text
"undefined"; used where the source concatenates a possibly absent
field into a string. -/
def jsStr (a : Option String) : String :=
  match a with
  | some s => s
  | none => "undefined"

/-- String coercion of the number `getFullYear` produced; `NaN`
(modelled `none`) prints as "NaN". -/
def jsYearStr (y : Option Int) : String :=
  match y with
  | some v => toString v
  | none => "NaN"

/-- The external collaborators of one run, as the source reaches
them: the TMDB transport (`fetch`+`response.json()`+`.results`,
collapsing every network or parse failure into `Except.error`), the
`encodeURI` builtin, `new Date(x).getFullYear()` (with `none` both
for a `NaN` year and for an `undefined` date argument), and
`Date.now()`. -/
structure JsEnv where
  search : String → Except Unit (List Candidate)
  encodeURI : String → String
  getFullYear : Option String → Option Int
  now : Int

/-- The constant query URL of src/unnamed/part_000 line 17. -/
def tmdbUrl : String :=
  "https://api.themoviedb.org/3/search/multi?include_adult=false&language=en-US&page=1"

/-- The `fallback` literal of `fetchMovieData` (src/unnamed/part_000
lines 130-138): unresolved id 0, raw scraped title, search URL built
from the raw title. -/
def fallbackRecord (env : JsEnv) (movie : String) : MovieRecord :=
  { id := 0, title := movie, releaseDate := none, releaseYear := none,
    mediaType := none, dateAdded := env.now,
    googleSearchUrl := "https://google.ca/search?q=" ++ env.encodeURI movie }

/-- `fetchMovieData(movie, resultIndex)` (src/unnamed/part_000 lines
128-183).  A transport/parse failure is the `.error` case (the
`.catch` returns the fallback); an empty `results` array returns the
fallback; a missing candidate at `resultIndex` (undefined, falsy)
returns the fallback; otherwise the candidate is normalised.  When a
candidate lacks both `title` and `name` the JS record stores
`undefined`; here the concatenation coercion `jsStr` is applied once
at the record boundary. -/
def fetchMovieData (env : JsEnv) (movie : String) (resultIndex : Nat) : MovieRecord :=
  match env.search (tmdbUrl ++ "&query=" ++ env.encodeURI movie) with
  | .error _ => fallbackRecord env movie
  | .ok results =>
    if results.length = 0 then fallbackRecord env movie
    else
      match results[resultIndex]? with
      | none => fallbackRecord env movie
      | some result =>
        let title := jsOr result.title result.name
        let releaseDate := jsOr result.release_date result.first_air_date
        let year := env.getFullYear releaseDate
        { id := result.id, title := jsStr title, releaseDate := releaseDate,
          releaseYear := year, mediaType := result.media_type,
          dateAdded := env.now,
          googleSearchUrl := "https://google.ca/search?q="
            ++ env.encodeURI (jsStr title ++ " " ++ "(" ++ jsYearStr year ++ ")") }

/-- C5.  The resolver never throws outward: if the transport or JSON
parse fails, or the provider returns zero candidates, or no candidate
exists at the requested rank, `fetchMovieData` returns the fallback
unresolved record, whose id is 0, whose title is the input title and
whose search URL is built from the raw title. -/
theorem fetchMovieData_fallback (env : JsEnv) (movie : String) (resultIndex : Nat) :
    ((∃ e, env.search (tmdbUrl ++ "&query=" ++ env.encodeURI movie) = .error e) →
      fetchMovieData env movie resultIndex = fallbackRecord env movie) ∧
    (∀ results,
      env.search (tmdbUrl ++ "&query=" ++ env.encodeURI movie) = .ok results →
      (results = [] ∨ results[resultIndex]? = none) →
      fetchMovieData env movie resultIndex = fallbackRecord env movie) ∧
    (fallbackRecord env movie).id = 0 ∧
    (fallbackRecord env movie).title = movie ∧
    (fallbackRecord env movie).googleSearchUrl
      = "https://google.ca/search?q=" ++ env.encodeURI movie := by
  refine ⟨?_, ?_, rfl, rfl, rfl⟩
  · intro ⟨e, he⟩
    simp [fetchMovieData, he]
  · intro results hok hcase
    have hnone : results[resultIndex]? = none := by
      rcases hcase with rfl | h
      · rfl
      · exact h
    simp [fetchMovieData, hok, hnone]

/-- An environment whose transport always fails. -/
def envErr : JsEnv :=
  { search := fun _ => .error (), encodeURI := fun s => s,
    getFullYear := fun _ => none, now := 0 }

theorem fetchMovieData_fallback_witness :
    (∃ e, envErr.search (tmdbUrl ++ "&query=" ++ envErr.encodeURI "Unknown Film 1999") = .error e) ∧
    fetchMovieData envErr "Unknown Film 1999" 0 = fallbackRecord envErr "Unknown Film 1999" :=
  ⟨⟨(), rfl⟩, (fetchMovieData_fallback envErr "Unknown Film 1999" 0).1 ⟨(), rfl⟩⟩

/-! ## Batched resolution with cache reuse -/

/-- The batching loop shared by `collectMovieData`: take five work
items, process them (`Promise.all` keeps input order), then continue
with the rest (src/unnamed/part_000 lines 96-121).  Delays are timing
only and do not affect the value. -/
def processBatches {α β : Type} (g : α → β) : List α → List β
  | [] => []
  | m :: ms => ((m :: ms).take 5).map g ++ processBatches g (ms.drop 4)
termination_by l => l.length
decreasing_by
  simp only [List.length_cons, List.length_drop]
  omega

theorem processBatches_eq_map {α β : Type} (g : α → β) :
    ∀ l : List α, processBatches g l = l.map g := by
  have key : ∀ (n : Nat) (l : List α), l.length ≤ n → processBatches g l = l.map g := by
    intro n
    induction n with
    | zero =>
      intro l hl
      rw [Nat.le_zero] at hl
      rw [List.length_eq_zero.mp hl]
      simp only [processBatches, List.map_nil]
    | succ n ih =>
      intro l hl
      match l with
      | [] => simp only [processBatches, List.map_nil]
      | m :: ms =>
        rw [processBatches]
        have hdrop : (ms.drop 4).length ≤ n := by
          rw [List.length_drop]
          simp only [List.length_cons] at hl
          omega
        rw [ih (ms.drop 4) hdrop, ← List.map_append]
        congr 1
        show m :: ms.take 4 ++ ms.drop 4 = m :: ms
        rw [List.cons_append, List.take_append_drop]
  intro l
  exact key l.length l (Nat.le_refl _)

/-- The slug-keyed cache lookup object of `collectMovieData`
(src/unnamed/part_000 lines 88-91). -/
def cachedByTitle (cachedData : List MovieRecord) : String → Option MovieRecord :=
  buildMap (fun movie => slugify movie.title) cachedData

/-- `collectMovieData(movies, cachedData)` (src/unnamed/part_000
lines 84-124).  For each scraped title: if the slug-keyed cache
lookup is truthy and the override flag is unset, the cached record is
reused without a provider call; otherwise `fetchMovieData` runs at
rank 0.  The first component is the record list in input order; the
second records which titles were sent to the provider.  (The
`filter(result => result)` of the source keeps every element, since
`fetchMovieData` always yields a record.) -/
def collectMovieData (env : JsEnv) (override : Bool) (movies : List String)
    (cachedData : List MovieRecord) : List MovieRecord × List String :=
  let cachedMap := cachedByTitle cachedData
  let results := processBatches (fun movieTitle =>
    match cachedMap (slugify movieTitle), override with
    | some c, false => (c, (none : Option String))
    | some _, true => (fetchMovieData env movieTitle 0, some movieTitle)
    | none, _ => (fetchMovieData env movieTitle 0, some movieTitle)) movies
  (results.map Prod.fst, results.filterMap Prod.snd)

theorem filterMap_eq_filter_of_guard {α : Type} (h : α → Option α) (p : α → Bool)
    (hp : ∀ t, h t = if p t then some t else none) :
    ∀ l : List α, l.filterMap h = l.filter p := by
  intro l
  induction l with
  | nil => rfl
  | cons a l ih =>
    rw [List.filterMap_cons, List.filter_cons, hp a]
    by_cases hpa : p a
    · rw [if_pos hpa, if_pos hpa, ih]
    · rw [if_neg hpa, if_neg hpa, ih]

theorem filterMap_eq_self_of_some {α : Type} (h : α → Option α)
    (hp : ∀ t, h t = some t) : ∀ l : List α, l.filterMap h = l := by
  intro l
  induction l with
  | nil => rfl
  | cons a l ih => rw [List.filterMap_cons, hp a, ih]

/-- C3.  During regeneration, `collectMovieData` with the cached
records skips the provider entirely for every title whose SlugKey is
already a key of the cache (the cached record is returned verbatim,
the title is never queried), and with the override flag set it
re-resolves every title even when cached. -/
theorem collectMovieData_cache_policy (env : JsEnv) (movies : List String)
    (cachedData : List MovieRecord) :
    ((collectMovieData env false movies cachedData).1
        = movies.map (fun t =>
            match cachedByTitle cachedData (slugify t) with
            | some c => c
            | none => fetchMovieData env t 0)
      ∧ (collectMovieData env false movies cachedData).2
        = movies.filter (fun t => (cachedByTitle cachedData (slugify t)).isNone)
      ∧ ∀ t, (∃ c ∈ cachedData, slugify c.title = slugify t) →
          t ∉ (collectMovieData env false movies cachedData).2)
    ∧ ((collectMovieData env true movies cachedData).1
          = movies.map (fun t => fetchMovieData env t 0)
      ∧ (collectMovieData env true movies cachedData).2 = movies) := by
  have h2false : (collectMovieData env false movies cachedData).2
      = movies.filter (fun t => (cachedByTitle cachedData (slugify t)).isNone) := by
    show (processBatches _ movies).filterMap Prod.snd = _
    rw [processBatches_eq_map, List.filterMap_map]
    refine filterMap_eq_filter_of_guard _ _ ?_ movies
    intro t
    show (match cachedByTitle cachedData (slugify t), false with
      | some c, false => (c, (none : Option String))
      | some _, true => (fetchMovieData env t 0, some t)
      | none, _ => (fetchMovieData env t 0, some t)).snd = _
    cases h : cachedByTitle cachedData (slugify t) <;> simp [h]
  refine ⟨⟨?_, h2false, ?_⟩, ?_, ?_⟩
  · show (processBatches _ movies).map Prod.fst = _
    rw [processBatches_eq_map, List.map_map]
    congr 1
    funext t
    show (match cachedByTitle cachedData (slugify t), false with
      | some c, false => (c, (none : Option String))
      | some _, true => (fetchMovieData env t 0, some t)
      | none, _ => (fetchMovieData env t 0, some t)).fst = _
    cases h : cachedByTitle cachedData (slugify t) <;> simp
  · intro t ⟨c, hc, hk⟩
    rw [h2false]
    intro hmem
    have hpred := List.of_mem_filter hmem
    rcases buildMap_eq_some (fun movie => slugify movie.title) cachedData
      (slugify t) ⟨c, hc, hk⟩ with ⟨c', _, _, heq⟩
    rw [show cachedByTitle cachedData (slugify t) = some c' from heq] at hpred
    simp at hpred
  · show (processBatches _ movies).map Prod.fst = _
    rw [processBatches_eq_map, List.map_map]
    congr 1
    funext t
    show (match cachedByTitle cachedData (slugify t), true with
      | some c, false => (c, (none : Option String))
      | some _, true => (fetchMovieData env t 0, some t)
      | none, _ => (fetchMovieData env t 0, some t)).fst = _
    cases h : cachedByTitle cachedData (slugify t) <;> simp
  · show (processBatches _ movies).filterMap Prod.snd = _
    rw [processBatches_eq_map, List.filterMap_map]
    refine filterMap_eq_self_of_some _ ?_ movies
    intro t
    show (match cachedByTitle cachedData (slugify t), true with
      | some c, false => (c, (none : Option String))
      | some _, true => (fetchMovieData env t 0, some t)
      | none, _ => (fetchMovieData env t 0, some t)).snd = _
    cases h : cachedByTitle cachedData (slugify t) <;> simp

/-- A cached record whose title slugifies to "film-a". -/
def cachedFilmA : MovieRecord :=
  { id := 11, title := "Film A!", releaseDate := none, releaseYear := none,
    mediaType := some "movie", dateAdded := 3,
    googleSearchUrl := "https://google.ca/search?q=Film%20A" }

theorem collectMovieData_cache_policy_witness :
    (∃ c ∈ [cachedFilmA], slugify c.title = slugify "Film A") ∧
    "Film A" ∉ (collectMovieData envErr false ["Film A", "Film B"] [cachedFilmA]).2 :=
  ⟨⟨cachedFilmA, by decide, by decide⟩,
    (collectMovieData_cache_policy envErr ["Film A", "Film B"] [cachedFilmA]).1.2.2
      "Film A" ⟨cachedFilmA, by decide, by decide⟩⟩

/-! ## The unknowns pass -/

/-- The value of `const overrideCache = process.env.OVERRIDE_CACHE ??
false` (src/unnamed/part_000 line 16, src/index.js line 16): the raw
environment string when the variable is set (even to the empty
string), and the boolean `false` when it is unset. -/
inductive JsOverride where
  | str (s : String)
  | boolFalse
deriving DecidableEq, Repr

/-- `process.env.OVERRIDE_CACHE ?? false`, with `none` for an unset
variable (nullish) and `some s` for a set one. -/
def overrideCache (envVar : Option String) : JsOverride :=
  match envVar with
  | some s => JsOverride.str s
  | none => JsOverride.boolFalse

/-- JavaScript truthiness of the `overrideCache` value: a string is
truthy exactly when non-empty, the boolean `false` is falsy. -/
def jsTruthy (v : JsOverride) : Bool :=
  match v with
  | JsOverride.str s => s ≠ ""
  | JsOverride.boolFalse => false

/-- One hour in milliseconds, the `HOUR` constant of `isCacheFresh`. -/
def HOUR : Int := 1000 * 60 * 60

/-- `isCacheFresh(date)` (src/unnamed/part_000 lines 195-203,
src/index.js 161-169): `fresh = date > Date.now() - HOUR`, then
`overrideCache ? !overrideCache : fresh`; the negation of a truthy
value is `false`. -/
def isCacheFresh (ov : JsOverride) (now date : Int) : Bool :=
  let anHourAgo := now - HOUR
  let fresh := decide (date > anHourAgo)
  if jsTruthy ov then false else fresh

/-- `isCacheCurrent(cached, scraped)` (src/unnamed/part_000 lines
206-218): compare the slugs of the first ten cached titles with the
slugs of the first ten scraped titles.  The source compares the
`JSON.stringify` serialisations of the two string arrays, which are
equal exactly when the arrays are equal elementwise. -/
def isCacheCurrent (ov : JsOverride) (cached : List MovieRecord)
    (scraped : List String) : Bool :=
  let cachedFirstTen := (cached.take 10).map (fun i => slugify i.title)
  let scrapedFirstTen := (scraped.take 10).map (fun i => slugify i)
  let fresh := cachedFirstTen == scrapedFirstTen
  if jsTruthy ov then false else fresh

/-- C7.  With the override inactive, `isCacheFresh(generatedAt)` is
true exactly when now minus generatedAt is under one hour; with the
override active it is false regardless of the timestamp. -/
theorem isCacheFresh_spec (ov : JsOverride) (now date : Int) :
    (jsTruthy ov = false →
      (isCacheFresh ov now date = true ↔ now - date < HOUR)) ∧
    (jsTruthy ov = true → isCacheFresh ov now date = false) := by
  constructor
  · intro hov
    simp only [isCacheFresh, hov, Bool.false_eq_true, if_false, decide_eq_true_eq]
    omega
  · intro hov
    simp only [isCacheFresh, hov, if_true]

theorem isCacheFresh_spec_witness :
    (jsTruthy JsOverride.boolFalse = false ∧
      (isCacheFresh JsOverride.boolFalse 7200000 3600001 = true ↔
        (7200000 : Int) - 3600001 < HOUR)) ∧
    (jsTruthy (JsOverride.str "1") = true ∧
      isCacheFresh (JsOverride.str "1") 7200000 7199999 = false) :=
  ⟨⟨rfl, (isCacheFresh_spec JsOverride.boolFalse 7200000 3600001).1 rfl⟩,
    ⟨rfl, (isCacheFresh_spec (JsOverride.str "1") 7200000 7199999).2 rfl⟩⟩

/-- C10.  The override flag is the JavaScript truthiness of the raw
OVERRIDE_CACHE string: any non-empty value — including "false" and
"0" — makes `isCacheFresh` and `isCacheCurrent` return false
regardless of their inputs, and the override is inactive exactly when
the variable is unset or set to the empty string. -/
theorem overrideCache_truthiness (s : String) (now date : Int)
    (cached : List MovieRecord) (scraped : List String) (hs : s ≠ "") :
    isCacheFresh (overrideCache (some s)) now date = false ∧
    isCacheCurrent (overrideCache (some s)) cached scraped = false ∧
    jsTruthy (overrideCache none) = false ∧
    jsTruthy (overrideCache (some "")) = false ∧
    isCacheFresh (overrideCache none) now date = decide (date > now - HOUR) ∧
    isCacheFresh (overrideCache (some "")) now date = decide (date > now - HOUR) ∧
    isCacheCurrent (overrideCache (some "")) cached scraped
      = ((cached.take 10).map (fun i => slugify i.title)
          == (scraped.take 10).map (fun i => slugify i)) := by
  have htr : jsTruthy (overrideCache (some s)) = true := by
    simp [overrideCache, jsTruthy, hs]
  refine ⟨?_, ?_, rfl, by simp [overrideCache, jsTruthy], rfl, rfl, rfl⟩
  · simp only [isCacheFresh, htr, if_true]
  · simp only [isCacheCurrent, htr, if_true]

theorem overrideCache_truthiness_witness :
    ("false" : String) ≠ "" ∧ ("0" : String) ≠ "" ∧
    isCacheFresh (overrideCache (some "false")) 7200000 7199999 = false ∧
    isCacheCurrent (overrideCache (some "0")) [] [] = false :=
  ⟨by decide, by decide,
    (overrideCache_truthiness "false" 7200000 7199999 [] [] (by decide)).1,
    (overrideCache_truthiness "0" 7200000 7199999 [] [] (by decide)).2.1⟩

/-! ## The scraper

`scrape()` (src/unnamed/part_000 lines 28-80, src/index.js 28-80)
drives pages 0..5.  The `return` statements inside the `.then`
callback end only that callback, not the `for` loop, so a stalled
page contributes an empty entry list and the loop continues with the
next page and an unchanged `prevFirstItem`.

One further behaviour of the source is the index misalignment after
a failed page: the callback appends with `items.push([])` but fills
`items[i]` with the page index `i`.  Once any page has failed,
`items[i]` is `undefined` for every later page, so the callback
throws on the first access and the `.catch` swallows it — every page
after the first failure contributes an empty entry list and leaves
`prevFirstItem` unchanged, whatever it returned.  The `poisoned` flag
models this. -/

structure ScrapeState where
  items : List (List String)
  prevFirstItem : Option String
  poisoned : Bool
deriving DecidableEq, Repr

/-- One iteration of the page loop of `scrape()`.  `prevFirstItem`
conflates the initial `null` and a later `undefined` into `none`;
the two are distinguished in the source only by a log line, since
entry labels are strings and compare equal to neither. -/
def scrapePage (st : ScrapeState) (page : Except Unit (List String)) : ScrapeState :=
  match page with
  | .error _ => { st with poisoned := true }
  | .ok labels =>
    if st.poisoned then
      { st with items := st.items ++ [[]] }
    else
      let collected := labels.takeWhile (fun l => !(some l == st.prevFirstItem))
      if collected.length < labels.length then
        { st with items := st.items ++ [collected] }
      else if labels.head? == st.prevFirstItem then
        { st with items := st.items ++ [collected] }
      else
        { items := st.items ++ [collected], prevFirstItem := labels.head?,
          poisoned := false }

/-- `scrape()`: fold the page loop over indices 0..5, then
`filter(arr => arr.length)` and `flat(Infinity)`. -/
def scrape (pages : Nat → Except Unit (List String)) : List String :=
  let final := (List.range 6).foldl (fun st i => scrapePage st (pages i))
    { items := [], prevFirstItem := none, poisoned := false }
  (final.items.filter (fun arr => arr.length != 0)).flatten

/-- The pages of the C8 counterexample: the stall pair [A,B,C] /
[A,B,C,D] followed by a page with fresh content. -/
def stallPages : Nat → Except Unit (List String)
  | 0 => .ok ["A", "B", "C"]
  | 1 => .ok ["A", "B", "C", "D"]
  | 2 => .ok ["X"]
  | _ => .error ()

/-- C8, counterexample.  The claim says a repeated first entry makes
the whole scan terminate early, so with page 0 = [A,B,C] and page 1 =
[A,B,C,D] the scraper would return exactly [A,B,C].  It does not: the
`return` ends only the page callback, the loop goes on to page 2 and
collects its fresh content, giving [A,B,C,X]. -/
theorem scrape_stall_counterexample :
    stallPages 0 = .ok ["A", "B", "C"] ∧
    stallPages 1 = .ok ["A", "B", "C", "D"] ∧
    scrape stallPages = ["A", "B", "C", "X"] ∧
    scrape stallPages ≠ ["A", "B", "C"] :=
  ⟨rfl, rfl, by decide, by decide⟩

/-- A page either failed or repeats `a` as its first entry. -/
def stallCond (pages : Nat → Except Unit (List String)) (a : String) (i : Nat) : Bool :=
  match pages i with
  | .error _ => true
  | .ok l => l.head? == some a

theorem scrapePage_stall (st : ScrapeState) (a : String)
    (hprev : st.prevFirstItem = some a) (page : Except Unit (List String))
    (hp : match page with | .error _ => True | .ok l => l.head? = some a) :
    ((scrapePage st page).items = st.items ∨
      (scrapePage st page).items = st.items ++ [[]]) ∧
    (scrapePage st page).prevFirstItem = st.prevFirstItem := by
  match page with
  | .error _ => exact ⟨Or.inl rfl, rfl⟩
  | .ok labels =>
    match labels, hp with
    | a' :: rest, hp =>
      have ha' : a' = a := by
        simpa using hp
      subst ha'
      by_cases hpois : st.poisoned
      · have hval : scrapePage st (.ok (a' :: rest))
            = { st with items := st.items ++ [[]] } := by
          simp [scrapePage, hpois]
        rw [hval]
        exact ⟨Or.inr rfl, rfl⟩
      · have hcoll : (a' :: rest).takeWhile (fun l => !(some l == st.prevFirstItem)) = [] := by
          rw [List.takeWhile_cons, hprev]
          simp
        have hval : scrapePage st (.ok (a' :: rest))
            = { st with items := st.items ++ [[]] } := by
          simp only [scrapePage, if_neg hpois, hcoll, List.length_nil, List.length_cons]
          rw [if_pos (Nat.succ_pos rest.length)]
        rw [hval]
        exact ⟨Or.inr rfl, rfl⟩

theorem scrape_fold_stall (pages : Nat → Except Unit (List String)) (a : String) :
    ∀ (idxs : List Nat) (st : ScrapeState), st.prevFirstItem = some a →
      (∀ i ∈ idxs, stallCond pages a i = true) →
      ((idxs.foldl (fun s i => scrapePage s (pages i)) st).items.filter
          (fun arr => arr.length != 0))
        = st.items.filter (fun arr => arr.length != 0) := by
  intro idxs
  induction idxs with
  | nil => intro st _ _; rfl
  | cons i idxs ih =>
    intro st hprev hall
    have hst : stallCond pages a i = true := hall i (by simp)
    have hp : match pages i with | .error _ => True | .ok l => l.head? = some a := by
      unfold stallCond at hst
      match hpg : pages i with
      | .error _ => trivial
      | .ok l =>
        rw [hpg] at hst
        simpa using hst
    rcases scrapePage_stall st a hprev (pages i) hp with ⟨hitems, hprev'⟩
    rw [List.foldl_cons]
    rw [ih (scrapePage st (pages i)) (by rw [hprev', hprev])
      (fun j hj => hall j (by simp [hj]))]
    rcases hitems with h | h
    · rw [h]
    · rw [h, List.filter_append]
      simp

theorem takeWhile_all {α : Type} (p : α → Bool) (l : List α)
    (h : ∀ x ∈ l, p x = true) : l.takeWhile p = l := by
  induction l with
  | nil => rfl
  | cons x xs ih =>
    rw [List.takeWhile_cons, h x (by simp), if_pos rfl,
      ih (fun y hy => h y (by simp [hy]))]

/-- C8, amended.  When the first entry of the current page equals the
first entry captured on the previous page, that page's entries are
discarded and `prevFirstItem` stays unchanged, but the scan continues
with the remaining pages rather than terminating.  Consequently, if
page 0 yields `l0` and every page 1..5 either fails or begins with
page 0's first entry, `scrape` returns exactly `l0` — in particular
pages [A,B,C] then [A,B,C,D] give [A,B,C] when no later page
introduces fresh content. -/
theorem scrape_stall_discards_page (pages : Nat → Except Unit (List String))
    (l0 : List String) (a : String)
    (h0 : pages 0 = .ok l0) (hh : l0.head? = some a)
    (hrest : ∀ i ∈ [1, 2, 3, 4, 5], stallCond pages a i = true) :
    scrape pages = l0 := by
  have hl0ne : l0 ≠ [] := by
    intro h
    rw [h] at hh
    simp at hh
  have htw : l0.takeWhile (fun l => !(some l == (none : Option String))) = l0 :=
    takeWhile_all _ _ (fun x _ => rfl)
  have hstep : scrapePage { items := [], prevFirstItem := none, poisoned := false }
      (.ok l0) = { items := [l0], prevFirstItem := l0.head?, poisoned := false } := by
    simp only [scrapePage, htw]
    rw [if_neg (by simp)]
    rw [if_neg (by simp [Nat.lt_irrefl])]
    rw [if_neg (by rw [hh]; simp)]
    simp
  have hfold := scrape_fold_stall pages a [1, 2, 3, 4, 5]
    { items := [l0], prevFirstItem := l0.head?, poisoned := false } hh hrest
  simp only [scrape]
  have hrange : List.range 6 = 0 :: [1, 2, 3, 4, 5] := rfl
  rw [hrange, List.foldl_cons, h0, hstep, hfold]
  have hlen : (l0.length != 0) = true := by
    simp only [bne_iff_ne, ne_eq]
    intro h
    exact hl0ne (List.length_eq_zero.mp h)
  rw [List.filter_cons, hlen]
  simp

/-- The stall pages with no fresh content after the stall. -/
def stallPagesQuiet : Nat → Except Unit (List String)
  | 0 => .ok ["A", "B", "C"]
  | 1 => .ok ["A", "B", "C", "D"]
  | _ => .error ()

theorem scrape_stall_discards_page_witness :
    scrape stallPagesQuiet = ["A", "B", "C"] :=
  scrape_stall_discards_page stallPagesQuiet ["A", "B", "C"] "A" rfl rfl (by decide)

/-! ## The feed writer -/

/-- A feed item as `createRssFile` passes it to `feed.addItem`
(src/unnamed/part_000 lines 280-287): title and id are the same
string, and no date field is supplied (the `date:` line is commented
out in the source), recorded as `none`. -/
structure FeedEntry where
  title : String
  id : String
  date : Option Int
deriving DecidableEq, Repr

/-- The entry built for one record by `createRssFile`
(src/unnamed/part_000 lines 270-297): the ` (year)` suffix is
appended when `movie.releaseYear` is truthy — a present, non-zero
number (`null` and `NaN`, both `none` here, and the number 0 are
falsy). -/
def rssEntryOf (movie : MovieRecord) : FeedEntry :=
  let releaseYear :=
    match movie.releaseYear with
    | some y => if y ≠ 0 then " (" ++ toString y ++ ")" else ""
    | none => ""
  { title := movie.title ++ releaseYear,
    id := movie.title ++ releaseYear,
    date := none }

/-- The list of entries `createRssFile` adds to the feed, in record
order (the `if (data.length)` guard is the identity on the empty
list). -/
def createRssFile (data : List MovieRecord) : List FeedEntry :=
  data.map rssEntryOf

/-- A record whose release year is the number 0 (a date in year 0). -/
def yearZeroRec : MovieRecord :=
  { id := 77, title := "Year Zero", releaseDate := some "0000-01-01",
    releaseYear := some 0, mediaType := some "movie", dateAdded := 1,
    googleSearchUrl := "https://google.ca/search?q=Year%20Zero" }

/-- C9, counterexample.  The claim says the ` (year)` suffix appears
exactly when `releaseYear` is present.  For a record with
`releaseYear` present but equal to 0 the code appends no suffix,
because the source tests JavaScript truthiness (`movie.releaseYear ?
... : ''`) and the number 0 is falsy. -/
theorem createRssFile_year_zero_counterexample :
    yearZeroRec.releaseYear = some 0 ∧
    (rssEntryOf yearZeroRec).title = "Year Zero" ∧
    (rssEntryOf yearZeroRec).title ≠ "Year Zero (0)" := by
  decide

/-- C9, amended.  Each record yields one feed entry, in order; its
display title is the record's title followed by a ` (year)` suffix
exactly when `releaseYear` is present and non-zero (truthy), the bare
title otherwise; and the entry carries no publish date — the record
`{title := "Inception", releaseYear := some 2010}` yields the entry
title "Inception (2010)". -/
theorem createRssFile_entries (data : List MovieRecord) (i : Nat) (m : MovieRecord) :
    (createRssFile data)[i]? = (data[i]?).map rssEntryOf ∧
    (rssEntryOf m).date = none ∧
    (∀ y : Int, m.releaseYear = some y → y ≠ 0 →
      (rssEntryOf m).title = m.title ++ " (" ++ toString y ++ ")") ∧
    (m.releaseYear = none ∨ m.releaseYear = some 0 →
      (rssEntryOf m).title = m.title) := by
  refine ⟨List.getElem?_map rssEntryOf data i, rfl, ?_, ?_⟩
  · intro y hy hy0
    simp only [rssEntryOf, hy, if_pos hy0]
    simp [String.append_assoc]
  · intro hcase
    rcases hcase with h | h
    · simp [rssEntryOf, h]
    · simp [rssEntryOf, h]

/-- The spec's round-trip example record. -/
def inceptionRec : MovieRecord :=
  { id := 27205, title := "Inception", releaseDate := some "2010-07-15",
    releaseYear := some 2010, mediaType := some "movie", dateAdded := 1,
    googleSearchUrl := "https://google.ca/search?q=Inception%20(2010)" }

theorem createRssFile_entries_witness :
    (rssEntryOf inceptionRec).title = "Inception" ++ " (" ++ toString (2010 : Int) ++ ")" ∧
    (rssEntryOf inceptionRec).title = "Inception (2010)" ∧
    (rssEntryOf inceptionRec).date = none :=
  ⟨(createRssFile_entries [inceptionRec] 0 inceptionRec).2.2.1 2010 rfl (by decide),
    by decide, by decide⟩

/-! ## Idempotence of the slugifier

The output of `slugifyL` contains only lowercase ASCII letters,
digits and isolated hyphens, with no hyphen at either end; every
stage of the pipeline is the identity on such lists, which gives
idempotence (C4). -/

/-- A character of a slug other than the hyphen: lowercase ASCII
letter or digit. -/
def goodChar (c : Char) : Bool :=
  (0x61 ≤ c.toNat && c.toNat ≤ 0x7a) || (0x30 ≤ c.toNat && c.toNat ≤ 0x39)

theorem goodChar_spec (c : Char) (h : goodChar c = true) :
    keepChar c = true ∧ isSep c = false ∧ isJsSpace c = false ∧
      isAsciiUpper c = false := by
  simp only [goodChar, Bool.or_eq_true, Bool.and_eq_true, decide_eq_true_eq] at h
  refine ⟨?_, ?_, ?_, ?_⟩
  · simp [keepChar, isWordChar]
    omega
  · simp [isSep, isJsSpace]
    omega
  · simp [isJsSpace]
    omega
  · simp [isAsciiUpper]
    omega

theorem goodChar_of_filtered (c : Char) (h1 : keepChar c = true)
    (h2 : isSep c = false) (h3 : isAsciiUpper c = false) : goodChar c = true := by
  simp [keepChar, isWordChar, isJsSpace] at h1
  simp [isSep, isJsSpace] at h2
  simp [isAsciiUpper] at h3
  simp [goodChar]
  omega

theorem not_sep_ne_hyphen (c : Char) (h : isSep c = false) : c ≠ '-' := by
  intro heq
  subst heq
  exact absurd h (by decide)

theorem jsToLower_fix (c : Char) (h : isAsciiUpper c = false) : jsToLower c = c := by
  rw [jsToLower, if_neg]
  rw [h]
  exact Bool.false_ne_true

theorem jsToLower_not_upper (c : Char) : isAsciiUpper (jsToLower c) = false := by
  by_cases h : isAsciiUpper c = true
  · have harith : 0x41 ≤ c.toNat ∧ c.toNat ≤ 0x5a := by
      simpa only [isAsciiUpper, Bool.and_eq_true, decide_eq_true_eq] using h
    have hv : (c.toNat + 32).isValidChar := Or.inl (by omega)
    have htn : (Char.ofNat (c.toNat + 32)).toNat = c.toNat + 32 := by
      rw [Char.ofNat, dif_pos hv]
      rfl
    rw [jsToLower, if_pos h]
    simp only [isAsciiUpper, htn, Bool.and_eq_false_iff, decide_eq_false_iff_not, not_le]
    omega
  · rw [jsToLower_fix c (Bool.not_eq_true _ ▸ h)]
    exact Bool.not_eq_true _ ▸ h

/-! ### Membership through the pipeline stages -/

theorem mem_of_mem_dropWhile {α : Type} (p : α → Bool) (l : List α) (c : α)
    (h : c ∈ l.dropWhile p) : c ∈ l := by
  rw [← List.takeWhile_append_dropWhile (p := p) (l := l)]
  exact List.mem_append_right _ h

theorem mem_of_mem_trimlike {α : Type} (p : α → Bool) (l : List α) (c : α)
    (h : c ∈ ((l.dropWhile p).reverse.dropWhile p).reverse) : c ∈ l := by
  rw [List.mem_reverse] at h
  have h2 := mem_of_mem_dropWhile p _ c h
  rw [List.mem_reverse] at h2
  exact mem_of_mem_dropWhile p _ c h2

theorem jsTrim_eq (l : List Char) :
    jsTrim l = ((l.dropWhile isJsSpace).reverse.dropWhile isJsSpace).reverse := rfl

theorem stripHyphens_eq (l : List Char) :
    stripHyphens l
      = ((l.dropWhile (fun c => c == '-')).reverse.dropWhile (fun c => c == '-')).reverse := rfl

theorem mem_collapseSeps :
    ∀ (b : Bool) (l : List Char) (c : Char), c ∈ collapseSeps b l →
      c = '-' ∨ (c ∈ l ∧ isSep c = false) := by
  intro b l
  induction l generalizing b with
  | nil =>
    intro c h
    rw [collapseSeps] at h
    cases h
  | cons x xs ih =>
    intro c h
    rw [collapseSeps] at h
    by_cases hx : isSep x = true
    · rw [if_pos hx] at h
      cases b with
      | true =>
        rcases ih true c h with h' | ⟨hm, hs⟩
        · exact Or.inl h'
        · exact Or.inr ⟨List.mem_cons_of_mem x hm, hs⟩
      | false =>
        rcases List.mem_cons.mp h with rfl | h'
        · exact Or.inl rfl
        · rcases ih true c h' with h'' | ⟨hm, hs⟩
          · exact Or.inl h''
          · exact Or.inr ⟨List.mem_cons_of_mem x hm, hs⟩
    · rw [if_neg hx] at h
      rcases List.mem_cons.mp h with rfl | h'
      · exact Or.inr ⟨List.mem_cons_self c xs, Bool.not_eq_true _ ▸ hx⟩
      · rcases ih false c h' with h'' | ⟨hm, hs⟩
        · exact Or.inl h''
        · exact Or.inr ⟨List.mem_cons_of_mem x hm, hs⟩

/-! ### Hyphen isolation, ends and fixed points -/

/-- Adjacent slug characters are never both hyphens. -/
def noTwoHyphens (a b : Char) : Prop := a ≠ '-' ∨ b ≠ '-'

theorem collapseSeps_true_head :
    ∀ (l : List Char) (c : Char),
      (collapseSeps true l).head? = some c → isSep c = false := by
  intro l
  induction l with
  | nil =>
    intro c h
    rw [collapseSeps] at h
    cases h
  | cons x xs ih =>
    intro c h
    by_cases hx : isSep x = true
    · have heq : collapseSeps true (x :: xs) = collapseSeps true xs := by
        simp [collapseSeps, hx]
      rw [heq] at h
      exact ih c h
    · have heq : collapseSeps true (x :: xs) = x :: collapseSeps false xs := by
        simp [collapseSeps, hx]
      rw [heq] at h
      obtain rfl : x = c := by simpa using h
      simpa using hx

theorem collapseSeps_chain :
    ∀ (l : List Char) (b : Bool), List.Chain' noTwoHyphens (collapseSeps b l) := by
  intro l
  induction l with
  | nil =>
    intro b
    rw [collapseSeps]
    exact List.chain'_nil
  | cons x xs ih =>
    intro b
    by_cases hx : isSep x = true
    · cases b with
      | true =>
        have heq : collapseSeps true (x :: xs) = collapseSeps true xs := by
          simp [collapseSeps, hx]
        rw [heq]
        exact ih true
      | false =>
        have heq : collapseSeps false (x :: xs) = '-' :: collapseSeps true xs := by
          simp [collapseSeps, hx]
        rw [heq, List.chain'_cons']
        refine ⟨?_, ih true⟩
        intro y hy
        exact Or.inr (not_sep_ne_hyphen y (collapseSeps_true_head xs y (Option.mem_def.mp hy)))
    · have heq : collapseSeps b (x :: xs) = x :: collapseSeps false xs := by
        simp [collapseSeps, hx]
      rw [heq, List.chain'_cons']
      exact ⟨fun y _ => Or.inl (not_sep_ne_hyphen x (by simpa using hx)), ih false⟩

theorem chain'_middle {α : Type} (R : α → α → Prop) (pre mid post : List α)
    (h : List.Chain' R (pre ++ mid ++ post)) : List.Chain' R mid :=
  (List.chain'_append.mp (List.chain'_append.mp h).1).2.1

theorem dropWhile_decomp_rev {α : Type} (p : α → Bool) (m : List α) :
    m = (m.reverse.dropWhile p).reverse ++ (m.reverse.takeWhile p).reverse := by
  calc m = m.reverse.reverse := (List.reverse_reverse m).symm
    _ = (m.reverse.takeWhile p ++ m.reverse.dropWhile p).reverse := by
        rw [List.takeWhile_append_dropWhile]
    _ = (m.reverse.dropWhile p).reverse ++ (m.reverse.takeWhile p).reverse :=
        List.reverse_append _ _

theorem trimlike_decomp {α : Type} (p : α → Bool) (l : List α) :
    l = l.takeWhile p ++ ((l.dropWhile p).reverse.dropWhile p).reverse
          ++ ((l.dropWhile p).reverse.takeWhile p).reverse := by
  conv_lhs => rw [← List.takeWhile_append_dropWhile (p := p) (l := l)]
  rw [List.append_assoc]
  congr 1
  exact dropWhile_decomp_rev p (l.dropWhile p)

theorem head?_dropWhile_not {α : Type} (p : α → Bool) :
    ∀ (l : List α) (c : α), (l.dropWhile p).head? = some c → p c = false := by
  intro l
  induction l with
  | nil =>
    intro c h
    cases h
  | cons a l ih =>
    intro c h
    rw [List.dropWhile_cons] at h
    by_cases ha : p a = true
    · rw [if_pos ha] at h
      exact ih c h
    · rw [if_neg ha] at h
      obtain rfl : a = c := by simpa using h
      simpa using ha

theorem head?_append_some {α : Type} (r post : List α) (c : α)
    (h : r.head? = some c) : (r ++ post).head? = some c := by
  cases r with
  | nil => cases h
  | cons x xs => simpa using h

theorem trimlike_head {α : Type} (p : α → Bool) (l : List α) (c : α)
    (h : (((l.dropWhile p).reverse.dropWhile p).reverse).head? = some c) :
    p c = false := by
  have h3 : (l.dropWhile p).head? = some c := by
    rw [dropWhile_decomp_rev p (l.dropWhile p)]
    exact head?_append_some _ _ _ h
  exact head?_dropWhile_not p l c h3

theorem trimlike_last {α : Type} (p : α → Bool) (l : List α) (c : α)
    (h : (((l.dropWhile p).reverse.dropWhile p).reverse).getLast? = some c) :
    p c = false := by
  rw [List.getLast?_reverse] at h
  exact head?_dropWhile_not p (l.dropWhile p).reverse c h

theorem dropWhile_eq_self_of_all {α : Type} (p : α → Bool) (l : List α)
    (h : ∀ c ∈ l, p c = false) : l.dropWhile p = l := by
  cases l with
  | nil => rfl
  | cons a l =>
    rw [List.dropWhile_cons, if_neg]
    rw [h a (List.mem_cons_self a l)]
    exact Bool.false_ne_true

theorem dropWhile_eq_self_of_head {α : Type} (p : α → Bool) (l : List α)
    (h : ∀ c, l.head? = some c → p c = false) : l.dropWhile p = l := by
  cases l with
  | nil => rfl
  | cons a l =>
    rw [List.dropWhile_cons, if_neg]
    rw [h a rfl]
    exact Bool.false_ne_true

theorem map_eq_self_of_mem {α : Type} (f : α → α) (l : List α)
    (h : ∀ c ∈ l, f c = c) : l.map f = l := by
  induction l with
  | nil => rfl
  | cons a l ih =>
    rw [List.map_cons, h a (List.mem_cons_self a l),
      ih (fun c hc => h c (List.mem_cons_of_mem a hc))]

theorem collapseSeps_fix :
    ∀ (l : List Char), (∀ c ∈ l, goodChar c = true ∨ c = '-') →
      List.Chain' noTwoHyphens l →
      collapseSeps false l = l ∧ (l.head? ≠ some '-' → collapseSeps true l = l) := by
  intro l
  induction l with
  | nil => exact fun _ _ => ⟨rfl, fun _ => rfl⟩
  | cons x xs ih =>
    intro hmem hchain
    have hxs := ih (fun c hc => hmem c (List.mem_cons_of_mem x hc))
      (List.chain'_cons'.mp hchain).2
    rcases hmem x (List.mem_cons_self x xs) with hgood | rfl
    · have hsep : isSep x = false := (goodChar_spec x hgood).2.1
      have heq : ∀ b, collapseSeps b (x :: xs) = x :: collapseSeps false xs := by
        intro b
        simp [collapseSeps, hsep]
      exact ⟨by rw [heq false, hxs.1], fun _ => by rw [heq true, hxs.1]⟩
    · have heq : collapseSeps false ('-' :: xs) = '-' :: collapseSeps true xs := by
        have hsep : isSep '-' = true := by decide
        simp [collapseSeps, hsep]
      have hxshead : xs.head? ≠ some '-' := by
        intro hh
        rcases (List.chain'_cons'.mp hchain).1 '-' (Option.mem_def.mpr hh) with h1 | h1 <;>
          exact h1 rfl
      exact ⟨by rw [heq, hxs.2 hxshead], fun hcon => absurd rfl hcon⟩


/-! ### The slug invariant and idempotence

The output of the pipeline contains only lowercase ASCII letters,
digits and isolated non-terminal hyphens; every stage is the identity
on such lists.  Because `String.prototype.toLowerCase` is a Unicode
library routine — a whole-string map, context-sensitive (final
sigma), and one-to-many on code points such as U+0130 — it is treated
as an external collaborator like `encodeURI` and `Date`: the pipeline
below takes the case conversion as an explicit parameter, and
idempotence is proved for every conversion with the two properties
the Unicode default case conversion has. -/

/-- The body of `slugify` (src/unnamed/part_000 lines 185-192) with
`String.prototype.toLowerCase` as an explicit collaborator parameter
mapping the whole character list: lowercase, trim, remove
`[^\w\s-]`, collapse `[\s_-]+` runs to `-`, strip outer hyphens. -/
def slugifyLWith (toLower : List Char → List Char) (l : List Char) : List Char :=
  stripHyphens (collapseSeps false (List.filter keepChar (jsTrim (toLower l))))

/-- String-level `slugify` with the case-conversion collaborator
explicit. -/
def slugifyWith (toLower : List Char → List Char) (s : String) : String :=
  ⟨slugifyLWith toLower s.data⟩

/-- The ASCII case-conversion instance; `slugify` is the pipeline at
this instance (`slugify_eq_with`). -/
def asciiToLower : List Char → List Char :=
  fun m => m.map jsToLower

theorem slugify_eq_with (s : String) : slugify s = slugifyWith asciiToLower s := rfl

theorem slugifyLWith_chars (toLower : List Char → List Char)
    (hupper : ∀ (m : List Char) (c : Char), c ∈ toLower m → isAsciiUpper c = false)
    (l : List Char) :
    ∀ c ∈ slugifyLWith toLower l, goodChar c = true ∨ c = '-' := by
  intro c hc
  have hc1 : c ∈ collapseSeps false (List.filter keepChar (jsTrim (toLower l))) := by
    rw [slugifyLWith, stripHyphens_eq] at hc
    exact mem_of_mem_trimlike _ _ _ hc
  rcases mem_collapseSeps false _ c hc1 with h | ⟨hm, hsep⟩
  · exact Or.inr h
  · left
    have hmf := List.mem_filter.mp hm
    have hmem2 : c ∈ toLower l := by
      have h1 := hmf.1
      rw [jsTrim_eq] at h1
      exact mem_of_mem_trimlike _ _ _ h1
    exact goodChar_of_filtered _ hmf.2 hsep (hupper l c hmem2)

theorem slugifyLWith_chain (toLower : List Char → List Char) (l : List Char) :
    List.Chain' noTwoHyphens (slugifyLWith toLower l) := by
  have h := collapseSeps_chain (List.filter keepChar (jsTrim (toLower l))) false
  rw [trimlike_decomp (fun c => c == '-')
    (collapseSeps false (List.filter keepChar (jsTrim (toLower l))))] at h
  have h2 := chain'_middle _ _ _ _ h
  rw [slugifyLWith, stripHyphens_eq]
  exact h2

theorem slugifyLWith_head (toLower : List Char → List Char) (l : List Char) :
    ∀ c, (slugifyLWith toLower l).head? = some c → c ≠ '-' := by
  intro c hc
  rw [slugifyLWith, stripHyphens_eq] at hc
  simpa using trimlike_head _ _ _ hc

theorem slugifyLWith_last (toLower : List Char → List Char) (l : List Char) :
    ∀ c, (slugifyLWith toLower l).getLast? = some c → c ≠ '-' := by
  intro c hc
  rw [slugifyLWith, stripHyphens_eq] at hc
  simpa using trimlike_last _ _ _ hc

theorem slugifyLWith_fix (toLower : List Char → List Char)
    (hfix : ∀ m : List Char, (∀ c ∈ m, goodChar c = true ∨ c = '-') → toLower m = m)
    (t : List Char)
    (hmem : ∀ c ∈ t, goodChar c = true ∨ c = '-')
    (hchain : List.Chain' noTwoHyphens t)
    (hhead : ∀ c, t.head? = some c → c ≠ '-')
    (hlast : ∀ c, t.getLast? = some c → c ≠ '-') :
    slugifyLWith toLower t = t := by
  have hnospace : ∀ c ∈ t, isJsSpace c = false := by
    intro c hc
    rcases hmem c hc with h | rfl
    · exact (goodChar_spec c h).2.2.1
    · decide
  have hlower : toLower t = t := hfix t hmem
  have htrim : jsTrim t = t := by
    rw [jsTrim_eq, dropWhile_eq_self_of_all isJsSpace t hnospace,
      dropWhile_eq_self_of_all isJsSpace t.reverse
        (fun c hc => hnospace c (List.mem_reverse.mp hc))]
    exact List.reverse_reverse t
  have hfilter : List.filter keepChar t = t := by
    refine List.filter_eq_self.mpr ?_
    intro c hc
    rcases hmem c hc with h | rfl
    · exact (goodChar_spec c h).1
    · decide
  have hcollapse : collapseSeps false t = t := (collapseSeps_fix t hmem hchain).1
  have hstrip : stripHyphens t = t := by
    rw [stripHyphens_eq,
      dropWhile_eq_self_of_head (fun c => c == '-') t
        (fun c hc => by simpa using hhead c hc),
      dropWhile_eq_self_of_head (fun c => c == '-') t.reverse
        (fun c hc => by
          rw [List.head?_reverse] at hc
          simpa using hlast c hc)]
    exact List.reverse_reverse t
  rw [slugifyLWith, hlower, htrim, hfilter, hcollapse, hstrip]

/-- C4.  The slug normaliser is total and idempotent.  `toLower`
stands for `String.prototype.toLowerCase`; the theorem assumes only
the two properties the Unicode default case conversion has: (i) its
output never contains an uppercase ASCII letter — compatible with the
exceptional mappings U+212A KELVIN SIGN to `k` and U+0130 to `i`
followed by U+0307 — and (ii) it is the identity on strings made of
lowercase ASCII letters, digits and hyphens, which carry no case
mapping and trigger no context rule.  Under those two assumptions,
for every input string `s` — empty, emoji-only and punctuation-only
strings included — `slugifyWith toLower s` is defined with no failure
case and `slugifyWith toLower (slugifyWith toLower s) = slugifyWith
toLower s`. -/
theorem slugify_toLowerCase_idempotent (toLower : List Char → List Char)
    (hupper : ∀ (m : List Char) (c : Char), c ∈ toLower m → isAsciiUpper c = false)
    (hfix : ∀ m : List Char, (∀ c ∈ m, goodChar c = true ∨ c = '-') → toLower m = m)
    (s : String) :
    slugifyWith toLower (slugifyWith toLower s) = slugifyWith toLower s := by
  show String.mk (slugifyLWith toLower (slugifyLWith toLower s.data))
    = String.mk (slugifyLWith toLower s.data)
  exact congrArg String.mk (slugifyLWith_fix toLower hfix (slugifyLWith toLower s.data)
    (slugifyLWith_chars toLower hupper s.data)
    (slugifyLWith_chain toLower s.data)
    (slugifyLWith_head toLower s.data)
    (slugifyLWith_last toLower s.data))

theorem asciiToLower_not_upper (m : List Char) (c : Char)
    (hc : c ∈ asciiToLower m) : isAsciiUpper c = false := by
  rcases List.mem_map.mp hc with ⟨x, _, rfl⟩
  exact jsToLower_not_upper x

theorem asciiToLower_fix (m : List Char)
    (hm : ∀ c ∈ m, goodChar c = true ∨ c = '-') : asciiToLower m = m := by
  refine map_eq_self_of_mem _ _ ?_
  intro c hc
  rcases hm c hc with h | rfl
  · exact jsToLower_fix c (goodChar_spec c h).2.2.2
  · decide

theorem slugify_toLowerCase_idempotent_witness :
    slugifyWith asciiToLower "  The Matrix!!  " = "the-matrix" ∧
    slugifyWith asciiToLower (slugifyWith asciiToLower "  The Matrix!!  ")
      = slugifyWith asciiToLower "  The Matrix!!  " :=
  ⟨by decide,
    slugify_toLowerCase_idempotent asciiToLower asciiToLower_not_upper
      asciiToLower_fix "  The Matrix!!  "⟩
